import Mathlib

/-!
Verification development for the SIWE (Sign In With Ethereum) challenge-response
authentication engine in `src/auth.mjs` of the sovereign-builder-kit repository.

Strings are modelled as `List Char`.  JavaScript `Map` objects are modelled as
association lists (`List (List Char × _)`) with JS `Map.get` / `Map.set` /
`Map.delete` semantics.  Timestamps (`Date.now()` milliseconds) are modelled as
`Int`.  The signature-verification oracle (`verifySignature`, which dynamically
imports `ethers`/`viem`) is modelled by an environment value `Backend` recording
which of its three outcomes the dynamic-import machinery produced for the given
message and signature: no backend importable, `ethers.verifyMessage` throwing,
or `ethers.verifyMessage` returning a recovered address.
-/

set_option maxRecDepth 100000

deriving instance DecidableEq for Except

/-- Lower-case hexadecimal digit test, the character class `[a-f0-9]` of the
nonce-extraction regex in the `/auth/verify` handler. -/
def isLowerHex (c : Char) : Bool :=
  (decide ('0' ≤ c) && decide (c ≤ '9')) || (decide ('a' ≤ c) && decide (c ≤ 'f'))

/-- Hexadecimal digit test, the character class `[a-fA-F0-9]` of the address
regexes in `auth.mjs`. -/
def isHexDigit (c : Char) : Bool :=
  isLowerHex c || (decide ('A' ≤ c) && decide (c ≤ 'F'))

/-- Longest run of `[a-f0-9]` characters at the head of the list: the capture
group `([a-f0-9]+)` of the nonce regex (maximal munch, as in JS regexes). -/
def takeLowerHex : List Char → List Char
  | [] => []
  | c :: cs => if isLowerHex c then c :: takeLowerHex cs else []

/-- Boolean initial-segment test: `leadsWith p s` holds when `p` is an initial
segment of `s`.  Used to model literal-text matching of the JS regexes. -/
def leadsWith : List Char → List Char → Bool
  | [], _ => true
  | _ :: _, [] => false
  | c :: p, d :: s => decide (c = d) && leadsWith p s

/-- Characters of the literal `Nonce: ` label used by the nonce regex
`/Nonce: ([a-f0-9]+)/` in the `/auth/verify` handler. -/
def nonceLabel : List Char := ['N', 'o', 'n', 'c', 'e', ':', ' ']

/-- Attempted match of the regex `Nonce: ([a-f0-9]+)` anchored at the start of
`s`; returns the capture group on success. -/
def nonceAt (s : List Char) : Option (List Char) :=
  if leadsWith nonceLabel s then
    if takeLowerHex (s.drop 7) = [] then none else some (takeLowerHex (s.drop 7))
  else none

/-- Leftmost match of `message.match(/Nonce: ([a-f0-9]+)/)`: scan every start
position left to right and return the first successful capture. -/
def findNonce : List Char → Option (List Char)
  | [] => none
  | c :: cs =>
    match nonceAt (c :: cs) with
    | some r => some r
    | none => findNonce cs

/-- Attempted match of the regex `0x[a-fA-F0-9]{40}` anchored at the start of
`s`; returns the whole match (`0x` plus exactly forty hex digits) on success. -/
def addrAt (s : List Char) : Option (List Char) :=
  match s with
  | a :: b :: rest =>
    if a = '0' ∧ b = 'x' ∧ 40 ≤ rest.length ∧ (rest.take 40).all isHexDigit then
      some (a :: b :: rest.take 40)
    else none
  | _ => none

/-- Leftmost match of `message.match(/0x[a-fA-F0-9]{40}/)`. -/
def findAddr : List Char → Option (List Char)
  | [] => none
  | c :: cs =>
    match addrAt (c :: cs) with
    | some r => some r
    | none => findAddr cs

/-- Anchored full-string address validation `/^0x[a-fA-F0-9]{40}$/.test(address)`
performed by the `/auth/nonce` handler. -/
def isEthAddress (s : List Char) : Bool :=
  match s with
  | a :: b :: rest => a = '0' && b = 'x' && rest.length = 40 && rest.all isHexDigit
  | _ => false

/-- ASCII lower-casing of one character, modelling JS `String.toLowerCase` on
the ASCII addresses the module handles. -/
def lcChar (c : Char) : Char :=
  if decide ('A' ≤ c) && decide (c ≤ 'Z') then Char.ofNat (c.toNat + 32) else c

/-- JS `s.toLowerCase()` on a modelled string. -/
def lcStr (s : List Char) : List Char := s.map lcChar

/-- JS `x || d` on string values: the empty string is falsy. -/
def jsOr (s d : List Char) : List Char := if s = [] then d else s

/-- JS falsiness of an optional string value (absent, or the empty string). -/
def jsFalsy : Option (List Char) → Bool
  | none => true
  | some s => decide (s = [])

/-- Literal ` wants you to sign in with your Ethereum account:\n` between the
domain and the address in the SIWE message template of `constructSIWEMessage`. -/
def litAccount : List Char :=
  [' ', 'w', 'a', 'n', 't', 's', ' ', 'y', 'o', 'u', ' ', 't', 'o', ' ',
   's', 'i', 'g', 'n', ' ', 'i', 'n', ' ', 'w', 'i', 't', 'h', ' ',
   'y', 'o', 'u', 'r', ' ', 'E', 't', 'h', 'e', 'r', 'e', 'u', 'm', ' ',
   'a', 'c', 'c', 'o', 'u', 'n', 't', ':', '\n']

/-- Literal blank-line separator `\n\n` after the address line. -/
def litBlank : List Char := ['\n', '\n']

/-- Default statement `Sign in to Sovereign Builder Kit` used when a falsy
statement is supplied. -/
def defaultStatement : List Char :=
  ['S', 'i', 'g', 'n', ' ', 'i', 'n', ' ', 't', 'o', ' ',
   'S', 'o', 'v', 'e', 'r', 'e', 'i', 'g', 'n', ' ',
   'B', 'u', 'i', 'l', 'd', 'e', 'r', ' ', 'K', 'i', 't']

/-- Literal `\n\nURI: ` before the URI field. -/
def litURI : List Char := ['\n', '\n', 'U', 'R', 'I', ':', ' ']

/-- Literal `\nVersion: ` before the version field. -/
def litVersion : List Char := ['\n', 'V', 'e', 'r', 's', 'i', 'o', 'n', ':', ' ']

/-- Literal `\nChain ID: ` before the chain-id field. -/
def litChain : List Char := ['\n', 'C', 'h', 'a', 'i', 'n', ' ', 'I', 'D', ':', ' ']

/-- Literal `\nNonce: ` before the nonce field. -/
def litNonce : List Char := ['\n', 'N', 'o', 'n', 'c', 'e', ':', ' ']

/-- Literal `\nIssued At: ` before the issuance timestamp field. -/
def litIssued : List Char := ['\n', 'I', 's', 's', 'u', 'e', 'd', ' ', 'A', 't', ':', ' ']

/-- Default version string `'1'` (also the default chain id string). -/
def litOne : List Char := ['1']

/-- Embedding of `constructSIWEMessage` from `src/auth.mjs` (lines 42-53): the
template string
`${domain} wants you to sign in with your Ethereum account:\n${address}\n\n${statement || 'Sign in to Sovereign Builder Kit'}\n\nURI: ${uri}\nVersion: ${version || '1'}\nChain ID: ${chainId || '1'}\nNonce: ${nonce}\nIssued At: ${issuedAt}`. -/
def constructSIWEMessage (domain address statement uri version chainId nonce issuedAt : List Char) :
    List Char :=
  domain ++ litAccount ++ address ++ litBlank ++ jsOr statement defaultStatement ++
    litURI ++ uri ++ litVersion ++ jsOr version litOne ++ litChain ++ jsOr chainId litOne ++
    litNonce ++ nonce ++ litIssued ++ issuedAt

/-- Session duration constant `SESSION_DURATION = 24 * 60 * 60 * 1000` (line 22). -/
def SESSION_DURATION : Int := 24 * 60 * 60 * 1000

/-- Nonce time-to-live constant `NONCE_EXPIRY = 5 * 60 * 1000` (line 23). -/
def NONCE_EXPIRY : Int := 5 * 60 * 1000

/-- Value stored in the `nonces` map: `{ address, createdAt }` (line 109). -/
structure NonceData where
  address : List Char
  createdAt : Int
deriving DecidableEq

/-- Value stored in the `sessions` map:
`{ address, chainId, issuedAt, expiresAt }` (lines 171-176). -/
structure SessionData where
  address : List Char
  chainId : Nat
  issuedAt : Int
  expiresAt : Int
deriving DecidableEq

/-- JS `Map.get`: value of the first (unique) entry with the given key. -/
def mapGet {α : Type} : List (List Char × α) → List Char → Option α
  | [], _ => none
  | (k', v) :: t, k => if k' = k then some v else mapGet t k

/-- JS `Map.set`: replace the value of an existing key in place, else append. -/
def mapSet {α : Type} : List (List Char × α) → List Char → α → List (List Char × α)
  | [], k, v => [(k, v)]
  | (k', v') :: t, k, v => if k' = k then (k, v) :: t else (k', v') :: mapSet t k v

/-- JS `Map.delete`: remove the entries with the given key (a JS `Map` holds at
most one). -/
def mapDelete {α : Type} (m : List (List Char × α)) (k : List Char) :
    List (List Char × α) :=
  m.filter fun p => !decide (p.1 = k)

/-- Combined contents of the module-level `nonces` and `sessions` maps
(lines 19-20). -/
structure AuthState where
  nonces : List (List Char × NonceData)
  sessions : List (List Char × SessionData)
deriving DecidableEq

/-- Error kinds, one per distinct JSON error response of `attachAuth`.  The
names follow the spec's error vocabulary; each constructor is commented with
the exact response string it models. -/
inductive AuthError where
  | invalidIdentity   -- 400 'Valid Ethereum address required'   (/auth/nonce)
  | missingFields     -- 400 'message and signature required'    (/auth/verify)
  | malformedMessage  -- 400 'Invalid SIWE message format'       (/auth/verify)
  | nonceNotFound     -- 401 'Invalid or expired nonce'          (/auth/verify)
  | nonceExpired      -- 401 'Nonce expired'                     (/auth/verify)
  | identityMismatch  -- 401 'Address mismatch'                  (/auth/verify)
  | invalidSignature  -- 401 'Invalid signature'                 (/auth/verify)
  | noSession         -- 401 'No session'                        (/auth/session)
  | sessionExpired    -- 401 'Session expired'                   (/auth/session)
  | authRequired      -- 401 'Authentication required'           (requireAuth)
deriving DecidableEq

/-- Outcome of the dynamic-import machinery inside `verifySignature`
(lines 59-87) for the submitted message and signature:
`unavailable` — neither `ethers` nor `viem` can be imported;
`throws` — `ethers.verifyMessage` throws on this input;
`recovers a` — `ethers.verifyMessage` returns the address `a`. -/
inductive Backend where
  | unavailable
  | throws
  | recovers (a : List Char)
deriving DecidableEq

/-- Embedding of `verifySignature` (lines 59-87).  The viem branch always falls
through to ethers.  When ethers cannot be imported, or `ethers.verifyMessage`
throws, the inner `catch` returns `true` (the skip-verification fallback).
When a recovery succeeds the result is the case-insensitive comparison
`recoveredAddress.toLowerCase() === expectedAddress.toLowerCase()`. -/
def verifySignature (b : Backend) (expectedAddress : List Char) : Bool :=
  match b with
  | .unavailable => true
  | .throws => true
  | .recovers a => lcStr a = lcStr expectedAddress

/-- Fields of the `options` argument of `attachAuth` used by the handlers. -/
structure Options where
  domain : Option (List Char)
  statement : Option (List Char)
  chainId : Option Nat

/-- JS `options.domain || 'localhost'` (line 92). -/
def optDomain (o : Options) : List Char :=
  match o.domain with
  | none => ['l', 'o', 'c', 'a', 'l', 'h', 'o', 's', 't']
  | some s => jsOr s ['l', 'o', 'c', 'a', 'l', 'h', 'o', 's', 't']

/-- JS `options.statement || 'Sign in to Sovereign Builder Kit'` (line 93). -/
def optStatement (o : Options) : List Char :=
  match o.statement with
  | none => defaultStatement
  | some s => jsOr s defaultStatement

/-- JS `options.chainId || 8453` (lines 117 and 173): `0` is falsy. -/
def optChainId (o : Options) : Nat :=
  match o.chainId with
  | none => 8453
  | some n => if n = 0 then 8453 else n

/-- Literal `http://` prefixed to the domain to form the URI (line 115). -/
def litHttp : List Char := ['h', 't', 't', 'p', ':', '/', '/']

/-- Decimal rendering of the chain-id number interpolated into the template. -/
def natStr (n : Nat) : List Char := Nat.toDigits 10 n

/-- Embedding of the `POST /auth/nonce` handler (lines 99-123), the
coordinator's `requestChallenge` operation.  `body` is the `address` field of
the request body (`none` when absent), `tok` the token produced by
`generateNonce()`, `now` the value of `Date.now()` and `issuedAt` the rendered
`new Date().toISOString()`.  Returns the updated state and either the
`{message, nonce}` payload or the error response. -/
def requestChallenge (opts : Options) (st : AuthState) (body : Option (List Char))
    (tok : List Char) (now : Int) (issuedAt : List Char) :
    AuthState × Except AuthError (List Char × List Char) :=
  match body with
  | none => (st, .error .invalidIdentity)
  | some address =>
    if isEthAddress address then
      let msg := constructSIWEMessage (optDomain opts) address (optStatement opts)
        (litHttp ++ optDomain opts) litOne (natStr (optChainId opts)) tok issuedAt
      ({ st with nonces := mapSet st.nonces tok ⟨lcStr address, now⟩ }, .ok (msg, tok))
    else (st, .error .invalidIdentity)

/-- Embedding of the `POST /auth/verify` handler (lines 126-183), the
coordinator's `completeChallenge` operation.  `message` and `signature` are the
request-body fields (`none` when absent), `b` the oracle environment for this
submission, `sid` the fresh identifier produced by
`crypto.randomBytes(32).toString('hex')` and `now` the value of `Date.now()`
at session creation.  Returns the updated state and either the
`{sessionId, address, expiresAt}` payload or the error response. -/
def completeChallenge (opts : Options) (st : AuthState)
    (message signature : Option (List Char)) (b : Backend)
    (sid : List Char) (now : Int) :
    AuthState × Except AuthError (List Char × List Char × Int) :=
  if jsFalsy message || jsFalsy signature then (st, .error .missingFields)
  else
    let msg := message.getD []
    match findNonce msg, findAddr msg with
    | some nonce, some address =>
      match mapGet st.nonces nonce with
      | none => (st, .error .nonceNotFound)
      | some nd =>
        if now - nd.createdAt > NONCE_EXPIRY then
          ({ st with nonces := mapDelete st.nonces nonce }, .error .nonceExpired)
        else if ¬ nd.address = lcStr address then (st, .error .identityMismatch)
        else if verifySignature b address then
          ({ nonces := mapDelete st.nonces nonce,
             sessions := mapSet st.sessions sid
               ⟨lcStr address, optChainId opts, now, now + SESSION_DURATION⟩ },
           .ok (sid, lcStr address, now + SESSION_DURATION))
        else (st, .error .invalidSignature)
    | _, _ => (st, .error .malformedMessage)

/-- Embedding of the `GET /auth/session` handler (lines 186-204), the
coordinator's session-lookup operation.  `sessionId` models
`req.headers['x-session-id'] || req.query.sessionId`. -/
def checkSession (st : AuthState) (sessionId : Option (List Char)) (now : Int) :
    AuthState × Except AuthError (List Char × Nat × Int) :=
  if jsFalsy sessionId then (st, .error .noSession)
  else
    let sid := sessionId.getD []
    match mapGet st.sessions sid with
    | some s =>
      if now > s.expiresAt then
        ({ st with sessions := mapDelete st.sessions sid }, .error .sessionExpired)
      else (st, .ok (s.address, s.chainId, s.expiresAt))
    | none => ({ st with sessions := mapDelete st.sessions sid }, .error .sessionExpired)

/-- Embedding of the `POST /auth/logout` handler (lines 207-213), the
coordinator's `endSession` operation.  Always responds `{ ok: true }`,
modelled by the `Bool` component. -/
def endSession (st : AuthState) (sessionId : Option (List Char)) : AuthState × Bool :=
  if jsFalsy sessionId then (st, true)
  else ({ st with sessions := mapDelete st.sessions (sessionId.getD []) }, true)

/-- Embedding of the `requireAuth` middleware (lines 216-231).  On success the
payload is the `(req.walletAddress, req.chainId)` pair it installs. -/
def requireAuth (st : AuthState) (sessionId : Option (List Char)) (now : Int) :
    AuthState × Except AuthError (List Char × Nat) :=
  if jsFalsy sessionId then (st, .error .authRequired)
  else
    let sid := sessionId.getD []
    match mapGet st.sessions sid with
    | some s =>
      if now > s.expiresAt then
        ({ st with sessions := mapDelete st.sessions sid }, .error .sessionExpired)
      else (st, .ok (s.address, s.chainId))
    | none => ({ st with sessions := mapDelete st.sessions sid }, .error .sessionExpired)

/-- Boolean success test on a handler response. -/
def isOkE {α : Type} : Except AuthError α → Bool
  | .ok _ => true
  | .error _ => false

/-- Payload of a successful handler response. -/
def okPayload {α : Type} : Except AuthError α → Option α
  | .ok v => some v
  | .error _ => none

/-- Forty hex digits of the concrete test address. -/
def tHex : List Char :=
  ['7', 'a', '7', 'a', '5', 'c', '5', 'c', '9', 'e', '9', 'e', '3', 'b', '3', 'b',
   '1', 'd', '1', 'd', '8', 'f', '8', 'f', '2', 'a', '2', 'a', '6', 'c', '6', 'c',
   '4', 'e', '4', 'e', '0', 'b', '0', 'b']

/-- Concrete test address `0xabcdef0123456789…` (forty hex digits). -/
def tAddr : List Char := '0' :: 'x' :: tHex

/-- Concrete second test address, differing from `tAddr` in its last digit. -/
def tAddr2 : List Char :=
  '0' :: 'x' :: (tHex.take 39 ++ ['2'])

/-- Concrete test nonce token. -/
def tTok : List Char := ['a', '1', 'b', '2', 'c', '3']

/-- Concrete test session identifier. -/
def tSid : List Char := ['s', 'e', 's', 's', '1']

/-- Concrete test issuance timestamp string. -/
def tIso : List Char := ['2', '0', '2', '6']

/-- Concrete test signature blob. -/
def tSig : List Char := ['s', 'i', 'g']

/-- Options value with every field absent (all defaults apply). -/
def tOpts : Options := ⟨none, none, none⟩

/-- Challenge message that `/auth/nonce` would emit for `tAddr` and `tTok`
under the default options. -/
def tMsg : List Char :=
  constructSIWEMessage (optDomain tOpts) tAddr (optStatement tOpts)
    (litHttp ++ optDomain tOpts) litOne (natStr (optChainId tOpts)) tTok tIso

/-- State holding exactly the nonce record `/auth/nonce` would store for
`tAddr` and `tTok` at time 0. -/
def tState : AuthState := ⟨[(tTok, ⟨lcStr tAddr, 0⟩)], []⟩

/-- Statement string `Nonce: ff` used to fool the nonce-extraction regex. -/
def tFoolStmt : List Char := ['N', 'o', 'n', 'c', 'e', ':', ' ', 'f', 'f']

/-- State holding exactly one session for `tSid`, issued at time 0 and
expiring at `SESSION_DURATION`. -/
def tSessState : AuthState :=
  ⟨[], [(tSid, ⟨lcStr tAddr, 8453, 0, SESSION_DURATION⟩)]⟩

/-! Lemmas about the leftmost-match scanners `findNonce` and `findAddr`,
used for the round-trip property of the challenge message. -/

theorem leadsWith_append (p : List Char) :
    ∀ xs ys : List Char, p.length ≤ xs.length →
      leadsWith p (xs ++ ys) = leadsWith p xs := by
  induction p with
  | nil => intro xs ys _; rfl
  | cons c p ih =>
    intro xs ys h
    match xs with
    | [] => simp at h
    | d :: xs =>
      simp only [List.cons_append, leadsWith, List.append_eq]
      rw [ih xs ys (by simpa using h)]

theorem leadsWith_self (p r : List Char) : leadsWith p (p ++ r) = true := by
  induction p with
  | nil => rfl
  | cons c p ih => simp [leadsWith, ih]

theorem leadsWith_take (p : List Char) :
    ∀ t ys : List Char, leadsWith p (t ++ ys) = true → t.length ≤ p.length →
      t = p.take t.length ∧ leadsWith (p.drop t.length) ys = true := by
  induction p with
  | nil =>
    intro t ys h hl
    match t with
    | [] => exact ⟨rfl, h⟩
    | _ :: _ => simp at hl
  | cons c p ih =>
    intro t ys h hl
    match t with
    | [] => exact ⟨rfl, h⟩
    | d :: t =>
      simp only [List.cons_append, leadsWith, Bool.and_eq_true, decide_eq_true_eq] at h
      obtain ⟨rfl, h2⟩ := h
      obtain ⟨ht, hlw⟩ := ih t ys h2 (by simpa using hl)
      exact ⟨by simpa [List.take] using ht, by simpa [List.drop] using hlw⟩

theorem takeLowerHex_cons_false (c : Char) (r : List Char) (h : isLowerHex c = false) :
    takeLowerHex (c :: r) = [] := by
  simp [takeLowerHex, h]

theorem takeLowerHex_append_stop (xs : List Char) (c : Char) (r : List Char)
    (hxs : xs.all isLowerHex = true) (hc : isLowerHex c = false) :
    takeLowerHex (xs ++ c :: r) = xs := by
  induction xs with
  | nil => simp [takeLowerHex, hc]
  | cons d xs ih =>
    simp only [List.all_cons, Bool.and_eq_true] at hxs
    simp [takeLowerHex, hxs.1, ih hxs.2]

theorem nonceAt_cons_ne (c : Char) (ys : List Char) (h : ¬ c = 'N') :
    nonceAt (c :: ys) = none := by
  have hd : decide ('N' = c) = false := by
    simp only [decide_eq_false_iff_not]
    exact fun he => h he.symm
  simp [nonceAt, nonceLabel, leadsWith, hd]

theorem nonceAt_append_none (t ys : List Char) (ht : nonceAt t = none)
    (hys : ∀ k, k ≤ 7 → nonceAt (nonceLabel.take k ++ ys) = none) :
    nonceAt (t ++ ys) = none := by
  by_cases h7 : 7 ≤ t.length
  · have hlw : leadsWith nonceLabel (t ++ ys) = leadsWith nonceLabel t :=
      leadsWith_append nonceLabel t ys (by simp [nonceLabel]; omega)
    by_cases hl : leadsWith nonceLabel t = true
    · have hdrop : (t ++ ys).drop 7 = t.drop 7 ++ ys := by
        rw [List.drop_append_eq_append_drop]
        have h0 : 7 - t.length = 0 := by omega
        simp [h0]
      have hnil : takeLowerHex (t.drop 7) = [] := by
        by_contra hne
        simp [nonceAt, hl, hne] at ht
      match hdt : t.drop 7 with
      | [] =>
        have hlen : t.length = 7 := by
          have := (List.drop_eq_nil_iff).1 hdt
          omega
        have hteq : t = nonceLabel := by
          have := leadsWith_take nonceLabel t [] (by simpa using hl) (by simp [nonceLabel]; omega)
          simpa [hlen, nonceLabel] using this.1
        subst hteq
        simpa using hys 7 (by omega)
      | c :: r =>
        have hhex : isLowerHex c = false := by
          by_contra hcc
          simp only [Bool.not_eq_false] at hcc
          rw [hdt] at hnil
          simp [takeLowerHex, hcc] at hnil
        unfold nonceAt
        rw [hlw, hdrop, hdt]
        simp [hl, takeLowerHex_cons_false c (r ++ ys) hhex]
    · unfold nonceAt
      rw [hlw]
      simp [hl]
  · by_cases hlw : leadsWith nonceLabel (t ++ ys) = true
    · obtain ⟨hteq, -⟩ :=
        leadsWith_take nonceLabel t ys hlw (by simp [nonceLabel]; omega)
      rw [hteq]
      exact hys t.length (by omega)
    · unfold nonceAt
      simp [hlw]

theorem findNonce_cons (c : Char) (l : List Char) :
    findNonce (c :: l) =
      match nonceAt (c :: l) with
      | some r => some r
      | none => findNonce l := rfl

theorem findNonce_append (xs ys : List Char)
    (h : ∀ t, t <:+ xs → t ≠ [] → nonceAt (t ++ ys) = none) :
    findNonce (xs ++ ys) = findNonce ys := by
  induction xs with
  | nil => rfl
  | cons c cs ih =>
    have h1 : nonceAt (c :: (cs ++ ys)) = none := by
      have := h (c :: cs) (List.suffix_refl _) (by simp)
      simpa using this
    rw [List.cons_append, findNonce_cons, h1]
    exact ih fun t ht hne => h t (ht.trans (List.suffix_cons c cs)) hne

theorem findNonce_none_at (xs : List Char) (h : findNonce xs = none) :
    ∀ t, t <:+ xs → nonceAt t = none := by
  induction xs with
  | nil =>
    intro t ht
    rw [List.suffix_nil.1 ht]
    rfl
  | cons c cs ih =>
    intro t ht
    have hcs : nonceAt (c :: cs) = none ∧ findNonce cs = none := by
      unfold findNonce at h
      match hn : nonceAt (c :: cs) with
      | some r => rw [hn] at h; simp at h
      | none => rw [hn] at h; exact ⟨rfl, h⟩
    rcases List.suffix_cons_iff.1 ht with rfl | ht'
    · exact hcs.1
    · exact ih hcs.2 t ht'

theorem findNonce_skip (xs ys : List Char) (hxs : findNonce xs = none)
    (hys : ∀ k, k ≤ 7 → nonceAt (nonceLabel.take k ++ ys) = none) :
    findNonce (xs ++ ys) = findNonce ys :=
  findNonce_append xs ys fun t ht _ =>
    nonceAt_append_none t ys (findNonce_none_at xs hxs t ht) hys

theorem findNonce_skip_noN (xs ys : List Char) (h : ∀ c ∈ xs, ¬ c = 'N') :
    findNonce (xs ++ ys) = findNonce ys :=
  findNonce_append xs ys fun t ht hne => by
    match t with
    | [] => exact absurd rfl hne
    | c :: r =>
      exact nonceAt_cons_ne c (r ++ ys) (h c (ht.subset (by simp)))

theorem nonceBlock_nl (ys : List Char) :
    ∀ k, k ≤ 7 → nonceAt (nonceLabel.take k ++ ('\n' :: ys)) = none := by
  intro k hk
  interval_cases k <;>
    simp [nonceAt, nonceLabel, leadsWith, takeLowerHex, isLowerHex]

theorem nonceBlock_sw (ys : List Char) :
    ∀ k, k ≤ 7 → nonceAt (nonceLabel.take k ++ (' ' :: 'w' :: ys)) = none := by
  intro k hk
  interval_cases k <;>
    simp [nonceAt, nonceLabel, leadsWith, takeLowerHex, isLowerHex]

theorem addrAt_cons_ne (a : Char) (l : List Char) (h : ¬ a = '0') :
    addrAt (a :: l) = none := by
  match l with
  | [] => rfl
  | b :: rest => simp [addrAt, h]

theorem addrAt_append_none (t : List Char) (c : Char) (ys : List Char)
    (hhex : isHexDigit c = false) (hx : ¬ c = 'x')
    (ht : addrAt t = none) (htne : t ≠ []) :
    addrAt (t ++ c :: ys) = none := by
  match t with
  | [] => exact absurd rfl htne
  | [a] =>
    simp only [List.cons_append, List.nil_append, addrAt]
    exact if_neg fun hcon => hx hcon.2.1
  | a :: b :: r =>
    simp only [List.cons_append, addrAt]
    apply if_neg
    rintro ⟨ha, hb, hlen, hall⟩
    by_cases hr : 40 ≤ r.length
    · have htake : (r ++ c :: ys).take 40 = r.take 40 := by
        rw [List.take_append_eq_append_take]
        have h0 : 40 - r.length = 0 := by omega
        simp [h0]
      rw [htake] at hall
      simp [addrAt, ha, hb, hr, hall] at ht
    · have htake : (r ++ c :: ys).take 40 = r ++ (c :: ys).take (40 - r.length) := by
        rw [List.take_append_eq_append_take]
        have h1 : r.take 40 = r := List.take_of_length_le (by omega)
        rw [h1]
      rw [htake] at hall
      have hmem : c ∈ r ++ (c :: ys).take (40 - r.length) := by
        have h1 : 1 ≤ 40 - r.length := by omega
        have : c ∈ (c :: ys).take (40 - r.length) := by
          match h2 : 40 - r.length with
          | 0 => omega
          | n + 1 => simp [List.take]
        exact List.mem_append_right r this
      have := List.all_eq_true.1 hall c hmem
      simp [hhex] at this

theorem findAddr_cons (c : Char) (l : List Char) :
    findAddr (c :: l) =
      match addrAt (c :: l) with
      | some r => some r
      | none => findAddr l := rfl

theorem findAddr_append (xs ys : List Char)
    (h : ∀ t, t <:+ xs → t ≠ [] → addrAt (t ++ ys) = none) :
    findAddr (xs ++ ys) = findAddr ys := by
  induction xs with
  | nil => rfl
  | cons c cs ih =>
    have h1 : addrAt (c :: (cs ++ ys)) = none := by
      have := h (c :: cs) (List.suffix_refl _) (by simp)
      simpa using this
    rw [List.cons_append, findAddr_cons, h1]
    exact ih fun t ht hne => h t (ht.trans (List.suffix_cons c cs)) hne

theorem findAddr_none_at (xs : List Char) (h : findAddr xs = none) :
    ∀ t, t <:+ xs → addrAt t = none := by
  induction xs with
  | nil =>
    intro t ht
    rw [List.suffix_nil.1 ht]
    rfl
  | cons c cs ih =>
    intro t ht
    have hcs : addrAt (c :: cs) = none ∧ findAddr cs = none := by
      unfold findAddr at h
      match hn : addrAt (c :: cs) with
      | some r => rw [hn] at h; simp at h
      | none => rw [hn] at h; exact ⟨rfl, h⟩
    rcases List.suffix_cons_iff.1 ht with rfl | ht'
    · exact hcs.1
    · exact ih hcs.2 t ht'

theorem findAddr_skip (xs : List Char) (c : Char) (ys : List Char)
    (hxs : findAddr xs = none) (hhex : isHexDigit c = false) (hx : ¬ c = 'x') :
    findAddr (xs ++ c :: ys) = findAddr (c :: ys) :=
  findAddr_append xs (c :: ys) fun t ht hne =>
    addrAt_append_none t c ys hhex hx (findAddr_none_at xs hxs t ht) hne

theorem findAddr_skip_no0 (xs ys : List Char) (h : ∀ c ∈ xs, ¬ c = '0') :
    findAddr (xs ++ ys) = findAddr ys :=
  findAddr_append xs ys fun t ht hne => by
    match t with
    | [] => exact absurd rfl hne
    | c :: r =>
      exact addrAt_cons_ne c (r ++ ys) (h c (ht.subset (by simp)))

theorem findNonce_cons_none (c : Char) (l : List Char) (h : nonceAt (c :: l) = none) :
    findNonce (c :: l) = findNonce l := by
  rw [findNonce_cons, h]

theorem findNonce_cons_some (c : Char) (l r : List Char) (h : nonceAt (c :: l) = some r) :
    findNonce (c :: l) = some r := by
  rw [findNonce_cons, h]

theorem findAddr_at_address (h rest : List Char)
    (hlen : h.length = 40) (hall : h.all isHexDigit = true) :
    findAddr (('0' :: 'x' :: h) ++ rest) = some ('0' :: 'x' :: h) := by
  have htake : (h ++ rest).take 40 = h := by
    rw [List.take_append_eq_append_take]
    have h1 : h.take 40 = h := List.take_of_length_le (by omega)
    have h0 : 40 - h.length = 0 := by omega
    simp [h1, h0]
  rw [List.cons_append, List.cons_append, findAddr_cons]
  have hge : 40 ≤ (h ++ rest).length := by
    rw [List.length_append]; omega
  have haddr : addrAt ('0' :: 'x' :: (h ++ rest)) = some ('0' :: 'x' :: h) := by
    simp only [addrAt, htake]
    rw [if_pos ⟨trivial, trivial, hge, hall⟩]
  rw [haddr]

/-! Chunk-skipping wrappers, one per boundary of the SIWE message template. -/

theorem hex_not_N (c : Char) (hc : isHexDigit c = true) : ¬ c = 'N' := by
  intro he
  rw [he] at hc
  exact absurd hc (by decide)

theorem address_noN (h : List Char) (hall : h.all isHexDigit = true) :
    ∀ c ∈ ('0' :: 'x' :: h), ¬ c = 'N' := by
  intro c hc
  simp only [List.mem_cons] at hc
  rcases hc with rfl | rfl | hch
  · decide
  · decide
  · exact hex_not_N c (List.all_eq_true.1 hall c hch)

theorem findNonce_skip_domain (domain X : List Char) (hdom : findNonce domain = none) :
    findNonce (domain ++ (litAccount ++ X)) = findNonce (litAccount ++ X) := by
  have hshape : litAccount ++ X = ' ' :: 'w' :: (litAccount.drop 2 ++ X) := rfl
  rw [hshape]
  exact findNonce_skip domain _ hdom (nonceBlock_sw _)

theorem findNonce_skip_uriB (xs X : List Char) (hxs : findNonce xs = none) :
    findNonce (xs ++ (litURI ++ X)) = findNonce (litURI ++ X) := by
  have hshape : litURI ++ X = '\n' :: (litURI.drop 1 ++ X) := rfl
  rw [hshape]
  exact findNonce_skip xs _ hxs (nonceBlock_nl _)

theorem findNonce_skip_versionB (xs X : List Char) (hxs : findNonce xs = none) :
    findNonce (xs ++ (litVersion ++ X)) = findNonce (litVersion ++ X) := by
  have hshape : litVersion ++ X = '\n' :: (litVersion.drop 1 ++ X) := rfl
  rw [hshape]
  exact findNonce_skip xs _ hxs (nonceBlock_nl _)

theorem findNonce_skip_chainB (xs X : List Char) (hxs : findNonce xs = none) :
    findNonce (xs ++ (litChain ++ X)) = findNonce (litChain ++ X) := by
  have hshape : litChain ++ X = '\n' :: (litChain.drop 1 ++ X) := rfl
  rw [hshape]
  exact findNonce_skip xs _ hxs (nonceBlock_nl _)

theorem findNonce_skip_nonceB (xs X : List Char) (hxs : findNonce xs = none) :
    findNonce (xs ++ (litNonce ++ X)) = findNonce (litNonce ++ X) := by
  have hshape : litNonce ++ X = '\n' :: (litNonce.drop 1 ++ X) := rfl
  rw [hshape]
  exact findNonce_skip xs _ hxs (nonceBlock_nl _)

theorem findNonce_at_nonce (nonce rest : List Char)
    (hne : nonce ≠ []) (hall : nonce.all isLowerHex = true) :
    findNonce (litNonce ++ (nonce ++ (litIssued ++ rest))) = some nonce := by
  have hat : nonceAt (nonceLabel ++ (nonce ++ (litIssued ++ rest))) = some nonce := by
    unfold nonceAt
    rw [leadsWith_self]
    have hdrop : (nonceLabel ++ (nonce ++ (litIssued ++ rest))).drop 7 =
        nonce ++ (litIssued ++ rest) := by
      have h7 : nonceLabel.length = 7 := by decide
      rw [← h7, List.drop_left]
    rw [hdrop]
    have hlit : litIssued ++ rest = '\n' :: (litIssued.drop 1 ++ rest) := rfl
    rw [hlit, takeLowerHex_append_stop nonce '\n' _ hall (by decide)]
    simp [hne]
  have hshape : litNonce ++ (nonce ++ (litIssued ++ rest)) =
      '\n' :: (nonceLabel ++ (nonce ++ (litIssued ++ rest))) := rfl
  rw [hshape, findNonce_cons_none '\n' _ (nonceAt_cons_ne '\n' _ (by decide))]
  exact findNonce_cons_some 'N' _ nonce hat

theorem findAddr_skip_domain (domain X : List Char) (hdom : findAddr domain = none) :
    findAddr (domain ++ (litAccount ++ X)) = findAddr (litAccount ++ X) := by
  have hshape : litAccount ++ X = ' ' :: (litAccount.drop 1 ++ X) := rfl
  rw [hshape]
  exact findAddr_skip domain ' ' _ hdom (by decide) (by decide)

theorem findNonce_message (domain stmt uri version chainId nonce issuedAt h : List Char)
    (hall : h.all isHexDigit = true)
    (hdomN : findNonce domain = none)
    (hstmt : findNonce (jsOr stmt defaultStatement) = none)
    (huri : findNonce uri = none)
    (hver : findNonce (jsOr version litOne) = none)
    (hcid : findNonce (jsOr chainId litOne) = none)
    (hne : nonce ≠ []) (hnall : nonce.all isLowerHex = true) :
    findNonce (constructSIWEMessage domain ('0' :: 'x' :: h) stmt uri version chainId
      nonce issuedAt) = some nonce := by
  unfold constructSIWEMessage
  simp only [List.append_assoc]
  rw [findNonce_skip_domain domain _ hdomN]
  rw [findNonce_skip_noN litAccount _ (by decide)]
  rw [findNonce_skip_noN _ _ (address_noN h hall)]
  rw [findNonce_skip_noN litBlank _ (by decide)]
  rw [findNonce_skip_uriB _ _ hstmt]
  rw [findNonce_skip_noN litURI _ (by decide)]
  rw [findNonce_skip_versionB _ _ huri]
  rw [findNonce_skip_noN litVersion _ (by decide)]
  rw [findNonce_skip_chainB _ _ hver]
  rw [findNonce_skip_noN litChain _ (by decide)]
  rw [findNonce_skip_nonceB _ _ hcid]
  exact findNonce_at_nonce nonce _ hne hnall

theorem findAddr_message (domain stmt uri version chainId nonce issuedAt h : List Char)
    (hlen : h.length = 40) (hall : h.all isHexDigit = true)
    (hdomA : findAddr domain = none) :
    findAddr (constructSIWEMessage domain ('0' :: 'x' :: h) stmt uri version chainId
      nonce issuedAt) = some ('0' :: 'x' :: h) := by
  unfold constructSIWEMessage
  simp only [List.append_assoc]
  rw [findAddr_skip_domain domain _ hdomA]
  rw [findAddr_skip_no0 litAccount _ (by decide)]
  exact findAddr_at_address h _ hlen hall

/-! Lemmas about the association-list model of JS `Map`. -/

theorem mapGet_mapDelete_self {α : Type} (m : List (List Char × α)) (k : List Char) :
    mapGet (mapDelete m k) k = none := by
  induction m with
  | nil => rfl
  | cons p t ih =>
    simp only [mapDelete, List.filter_cons] at *
    by_cases h : p.1 = k
    · simp [h, ih]
    · simp [h, mapGet, ih]

theorem mapGet_mapSet_self {α : Type} (m : List (List Char × α)) (k : List Char) (v : α) :
    mapGet (mapSet m k v) k = some v := by
  induction m with
  | nil => simp [mapSet, mapGet]
  | cons p t ih =>
    simp only [mapSet]
    by_cases h : p.1 = k
    · simp [h, mapGet]
    · simp [h, mapGet, ih]

/-- Reduction of `completeChallenge` once the request is well-formed, the
message parses and the nonce is found: only the expiry, identity and
signature stages remain. -/
theorem completeChallenge_found (opts : Options) (st : AuthState) (msg sig : List Char)
    (b : Backend) (sid : List Char) (now : Int) (n a : List Char) (nd : NonceData)
    (hm : ¬ msg = []) (hs : ¬ sig = [])
    (hn : findNonce msg = some n) (ha : findAddr msg = some a)
    (hget : mapGet st.nonces n = some nd) :
    completeChallenge opts st (some msg) (some sig) b sid now =
      if now - nd.createdAt > NONCE_EXPIRY then
        ({ st with nonces := mapDelete st.nonces n }, .error .nonceExpired)
      else if ¬ nd.address = lcStr a then (st, .error .identityMismatch)
      else if verifySignature b a then
        ({ nonces := mapDelete st.nonces n,
           sessions := mapSet st.sessions sid
             ⟨lcStr a, optChainId opts, now, now + SESSION_DURATION⟩ },
         .ok (sid, lcStr a, now + SESSION_DURATION))
      else (st, .error .invalidSignature) := by
  simp [completeChallenge, jsFalsy, hm, hs, hn, ha, hget]

/-! Claim theorems. -/

/-- Claim C1 (code_bug evidence).  The spec mandates fail-closed behaviour:
when the verification oracle cannot be consulted (no crypto backend) or
throws, `completeChallenge` must return `InvalidSignature` and never a
session.  The code does the opposite: `verifySignature` returns `true` both
when no backend is importable and when `ethers.verifyMessage` throws, so
`completeChallenge` establishes a session.  Evaluated here at a concrete
fresh, matching nonce. -/
theorem completeChallenge_open_without_backend :
    isOkE (completeChallenge tOpts tState (some tMsg) (some tSig)
      .unavailable tSid 100).2 = true
    ∧ mapGet (completeChallenge tOpts tState (some tMsg) (some tSig)
        .unavailable tSid 100).1.sessions tSid
      = some ⟨lcStr tAddr, 8453, 100, 100 + SESSION_DURATION⟩
    ∧ isOkE (completeChallenge tOpts tState (some tMsg) (some tSig)
        .throws tSid 100).2 = true := by
  refine ⟨by decide, by decide, by decide⟩

/-- Claim C2 (counterexample).  Building a challenge whose statement contains
the substring `Nonce: ff` and parsing it back with the Verifier's regex
recovers `ff` — the fragment from the statement — instead of the nonce that
was passed to build, because the statement line precedes the real `Nonce:`
line and the regex takes the leftmost match.  This refutes the claim for a
statement containing the substring `Nonce: `. -/
theorem roundtrip_fooled_by_statement :
    findNonce (constructSIWEMessage (optDomain tOpts) tAddr tFoolStmt
      (litHttp ++ optDomain tOpts) litOne (natStr (optChainId tOpts)) tTok tIso)
      = some ['f', 'f']
    ∧ findNonce (constructSIWEMessage (optDomain tOpts) tAddr tFoolStmt
        (litHttp ++ optDomain tOpts) litOne (natStr (optChainId tOpts)) tTok tIso)
      ≠ some tTok := by
  refine ⟨by decide, by decide⟩

/-- Claim C2 (amended).  Round trip: `build(...)` followed by the Verifier's
internal parse recovers the exact identity and nonce that were passed in,
provided the identity is a well-formed `0x` + 40-hex-digit address, the nonce
is a nonempty lowercase-hex token (as `generateNonce` produces), and neither
the domain nor the (defaulted) statement, URI, version or chain-id fields
contain a fooling substring — an earlier `Nonce: `-plus-hex-digit match, or
(for the domain, which precedes the identity line) an earlier address
match. -/
theorem roundtrip_recovers_identity_and_nonce
    (domain stmt uri version chainId nonce issuedAt h : List Char)
    (hlen : h.length = 40) (hall : h.all isHexDigit = true)
    (hdomN : findNonce domain = none) (hdomA : findAddr domain = none)
    (hstmt : findNonce (jsOr stmt defaultStatement) = none)
    (huri : findNonce uri = none)
    (hver : findNonce (jsOr version litOne) = none)
    (hcid : findNonce (jsOr chainId litOne) = none)
    (hne : nonce ≠ []) (hnall : nonce.all isLowerHex = true) :
    findAddr (constructSIWEMessage domain ('0' :: 'x' :: h) stmt uri version chainId
        nonce issuedAt) = some ('0' :: 'x' :: h)
    ∧ findNonce (constructSIWEMessage domain ('0' :: 'x' :: h) stmt uri version chainId
        nonce issuedAt) = some nonce :=
  ⟨findAddr_message domain stmt uri version chainId nonce issuedAt h hlen hall hdomA,
   findNonce_message domain stmt uri version chainId nonce issuedAt h hall hdomN
     hstmt huri hver hcid hne hnall⟩

/-- Witness for the amended claim C2 at concrete inputs. -/
theorem roundtrip_recovers_identity_and_nonce_witness :
    tHex.length = 40 ∧ tHex.all isHexDigit = true
    ∧ findNonce (optDomain tOpts) = none ∧ findAddr (optDomain tOpts) = none
    ∧ findNonce (jsOr defaultStatement defaultStatement) = none
    ∧ findNonce (litHttp ++ optDomain tOpts) = none
    ∧ findNonce (jsOr litOne litOne) = none
    ∧ findNonce (jsOr (natStr (optChainId tOpts)) litOne) = none
    ∧ tTok ≠ [] ∧ tTok.all isLowerHex = true
    ∧ (findAddr (constructSIWEMessage (optDomain tOpts) ('0' :: 'x' :: tHex)
          defaultStatement (litHttp ++ optDomain tOpts) litOne
          (natStr (optChainId tOpts)) tTok tIso) = some ('0' :: 'x' :: tHex)
      ∧ findNonce (constructSIWEMessage (optDomain tOpts) ('0' :: 'x' :: tHex)
          defaultStatement (litHttp ++ optDomain tOpts) litOne
          (natStr (optChainId tOpts)) tTok tIso) = some tTok) :=
  ⟨by decide, by decide, by decide, by decide, by decide, by decide, by decide,
   by decide, by decide, by decide,
   roundtrip_recovers_identity_and_nonce (optDomain tOpts) defaultStatement
     (litHttp ++ optDomain tOpts) litOne (natStr (optChainId tOpts)) tTok tIso tHex
     (by decide) (by decide) (by decide) (by decide) (by decide) (by decide)
     (by decide) (by decide) (by decide) (by decide)⟩

/-- Claim C3 (counterexample).  A `completeChallenge` attempt that reaches the
Signature Verifier and fails (the oracle recovers a different address) leaves
the nonce in the store: the same nonce can still authorize another attempt,
refuting destruction on failed consumption. -/
theorem nonce_kept_on_failed_verification :
    (completeChallenge tOpts tState (some tMsg) (some tSig)
      (.recovers tAddr2) tSid 100).2 = .error .invalidSignature
    ∧ mapGet (completeChallenge tOpts tState (some tMsg) (some tSig)
        (.recovers tAddr2) tSid 100).1.nonces tTok = some ⟨lcStr tAddr, 0⟩ := by
  refine ⟨by decide, by decide⟩

/-- Claim C3 (amended).  A `completeChallenge` attempt that reaches the
Signature Verifier removes the nonce from the store only when verification
succeeds; on verification failure the store is left unchanged (the nonce
remains available for another attempt within its TTL) and the attempt fails
with `InvalidSignature`. -/
theorem nonce_consumed_only_on_success
    (opts : Options) (st : AuthState) (msg sig : List Char) (b : Backend)
    (sid : List Char) (now : Int) (n a : List Char) (nd : NonceData)
    (hm : ¬ msg = []) (hs : ¬ sig = [])
    (hn : findNonce msg = some n) (ha : findAddr msg = some a)
    (hget : mapGet st.nonces n = some nd)
    (hfresh : ¬ now - nd.createdAt > NONCE_EXPIRY)
    (hmatch : nd.address = lcStr a) :
    (verifySignature b a = true →
      mapGet (completeChallenge opts st (some msg) (some sig) b sid now).1.nonces n = none)
    ∧ (verifySignature b a = false →
      (completeChallenge opts st (some msg) (some sig) b sid now).1 = st
      ∧ (completeChallenge opts st (some msg) (some sig) b sid now).2
          = .error .invalidSignature) := by
  have hred := completeChallenge_found opts st msg sig b sid now n a nd hm hs hn ha hget
  rw [if_neg hfresh, if_neg (fun hc => hc hmatch)] at hred
  constructor
  · intro hv
    rw [hred, if_pos hv]
    exact mapGet_mapDelete_self st.nonces n
  · intro hv
    rw [hred, if_neg (by simp [hv])]
    exact ⟨rfl, rfl⟩

/-- Witness for the amended claim C3 at concrete inputs: a successful
verification consumes the concrete nonce. -/
theorem nonce_consumed_only_on_success_witness :
    ¬ tMsg = [] ∧ ¬ tSig = []
    ∧ findNonce tMsg = some tTok ∧ findAddr tMsg = some tAddr
    ∧ mapGet tState.nonces tTok = some ⟨lcStr tAddr, 0⟩
    ∧ ¬ ((100 : Int) - 0 > NONCE_EXPIRY)
    ∧ (⟨lcStr tAddr, 0⟩ : NonceData).address = lcStr tAddr
    ∧ verifySignature (.recovers tAddr) tAddr = true
    ∧ mapGet (completeChallenge tOpts tState (some tMsg) (some tSig)
        (.recovers tAddr) tSid 100).1.nonces tTok = none :=
  ⟨by decide, by decide, by decide, by decide, by decide, by decide, by decide,
   by decide,
   (nonce_consumed_only_on_success tOpts tState tMsg tSig (.recovers tAddr) tSid 100
     tTok tAddr ⟨lcStr tAddr, 0⟩ (by decide) (by decide) (by decide) (by decide)
     (by decide) (by decide) (by decide)).1 (by decide)⟩

/-- Claim C4 (counterexample).  With an empty nonce store and an oracle that
would reject the signature, `completeChallenge` reports `NonceNotFound`, not
`InvalidSignature`: nonce validation is performed before signature
verification, so the first error encountered is not the verification error
the claimed verify-then-consume order would produce. -/
theorem nonce_error_precedes_signature_error :
    (completeChallenge tOpts ⟨[], []⟩ (some tMsg) (some tSig)
      (.recovers tAddr2) tSid 100).2 = .error .nonceNotFound
    ∧ AuthError.nonceNotFound ≠ AuthError.invalidSignature := by
  refine ⟨by decide, by decide⟩

/-- Claim C4 (amended).  `completeChallenge` validates the request fields and
the message format first, then the nonce (existence, expiry, identity
binding), then verifies the signature, and only then consumes the nonce and
creates the session; it returns the first error encountered in that order
(`MalformedMessage`, `NonceNotFound`, `NonceExpired`, `IdentityMismatch`,
`InvalidSignature`), each nonce-stage error being produced regardless of the
oracle outcome. -/
theorem completeChallenge_stage_order
    (opts : Options) (st : AuthState) (msg sig : List Char) (b : Backend)
    (sid : List Char) (now : Int)
    (hm : ¬ msg = []) (hs : ¬ sig = []) :
    ((findNonce msg = none ∨ findAddr msg = none) →
      (completeChallenge opts st (some msg) (some sig) b sid now).2
        = .error .malformedMessage)
    ∧ (∀ n a, findNonce msg = some n → findAddr msg = some a →
        mapGet st.nonces n = none →
        (completeChallenge opts st (some msg) (some sig) b sid now).2
          = .error .nonceNotFound)
    ∧ (∀ n a nd, findNonce msg = some n → findAddr msg = some a →
        mapGet st.nonces n = some nd → now - nd.createdAt > NONCE_EXPIRY →
        (completeChallenge opts st (some msg) (some sig) b sid now).2
          = .error .nonceExpired)
    ∧ (∀ n a nd, findNonce msg = some n → findAddr msg = some a →
        mapGet st.nonces n = some nd → ¬ now - nd.createdAt > NONCE_EXPIRY →
        ¬ nd.address = lcStr a →
        (completeChallenge opts st (some msg) (some sig) b sid now).2
          = .error .identityMismatch)
    ∧ (∀ n a nd, findNonce msg = some n → findAddr msg = some a →
        mapGet st.nonces n = some nd → ¬ now - nd.createdAt > NONCE_EXPIRY →
        nd.address = lcStr a → verifySignature b a = false →
        (completeChallenge opts st (some msg) (some sig) b sid now).2
          = .error .invalidSignature)
    ∧ (∀ n a nd, findNonce msg = some n → findAddr msg = some a →
        mapGet st.nonces n = some nd → ¬ now - nd.createdAt > NONCE_EXPIRY →
        nd.address = lcStr a → verifySignature b a = true →
        (completeChallenge opts st (some msg) (some sig) b sid now).2
          = .ok (sid, lcStr a, now + SESSION_DURATION)) := by
  refine ⟨?_, ?_, ?_, ?_, ?_, ?_⟩
  · rintro (hno | hno)
    · simp [completeChallenge, jsFalsy, hm, hs, hno]
    · match hfn : findNonce msg with
      | none => simp [completeChallenge, jsFalsy, hm, hs, hfn]
      | some n' => simp [completeChallenge, jsFalsy, hm, hs, hfn, hno]
  · intro n a hn ha hget
    simp [completeChallenge, jsFalsy, hm, hs, hn, ha, hget]
  · intro n a nd hn ha hget hexp
    rw [completeChallenge_found opts st msg sig b sid now n a nd hm hs hn ha hget,
      if_pos hexp]
  · intro n a nd hn ha hget hfresh hmm
    rw [completeChallenge_found opts st msg sig b sid now n a nd hm hs hn ha hget,
      if_neg hfresh, if_pos hmm]
  · intro n a nd hn ha hget hfresh hmatch hv
    rw [completeChallenge_found opts st msg sig b sid now n a nd hm hs hn ha hget,
      if_neg hfresh, if_neg (fun hc => hc hmatch), if_neg (by simp [hv])]
  · intro n a nd hn ha hget hfresh hmatch hv
    rw [completeChallenge_found opts st msg sig b sid now n a nd hm hs hn ha hget,
      if_neg hfresh, if_neg (fun hc => hc hmatch), if_pos hv]

/-- Witness for the amended claim C4 at concrete inputs: an absent nonce is
reported as `NonceNotFound` even though the oracle would also have rejected
the signature. -/
theorem completeChallenge_stage_order_witness :
    ¬ tMsg = [] ∧ ¬ tSig = []
    ∧ findNonce tMsg = some tTok ∧ findAddr tMsg = some tAddr
    ∧ mapGet (⟨[], []⟩ : AuthState).nonces tTok = none
    ∧ (completeChallenge tOpts ⟨[], []⟩ (some tMsg) (some tSig)
        (.recovers tAddr2) tSid 100).2 = .error .nonceNotFound :=
  ⟨by decide, by decide, by decide, by decide, by decide,
   (completeChallenge_stage_order tOpts ⟨[], []⟩ tMsg tSig (.recovers tAddr2) tSid 100
     (by decide) (by decide)).2.1 tTok tAddr (by decide) (by decide) (by decide)⟩

/-- Claim C5 (counterexample).  A lookup at `issuedAt + duration + 1` returns
`SessionExpired` and deletes the record, but the subsequent lookup of the same
sessionId returns `SessionExpired` again, not `NoSession`: the handler folds
the absent-session case into the same error, so the two error kinds are not
distinguished by sessionId. -/
theorem second_lookup_not_noSession :
    (checkSession tSessState (some tSid) (SESSION_DURATION + 1)).2
      = .error .sessionExpired
    ∧ (checkSession (checkSession tSessState (some tSid) (SESSION_DURATION + 1)).1
        (some tSid) (SESSION_DURATION + 1)).2 = .error .sessionExpired
    ∧ AuthError.sessionExpired ≠ AuthError.noSession := by
  refine ⟨by decide, by decide, by decide⟩

/-- Claim C5 (amended).  A lookup past `expiresAt` returns `SessionExpired`
and deletes the record, and every subsequent lookup of the same sessionId also
returns `SessionExpired`; the `NoSession` error is returned exactly when the
request carries no (or an empty) sessionId, never for a stored-then-removed
identifier. -/
theorem session_expiry_lookups
    (st : AuthState) (sid : List Char) (sd : SessionData) (now : Int)
    (hsid : ¬ sid = []) (hget : mapGet st.sessions sid = some sd)
    (hexp : now > sd.expiresAt) :
    (checkSession st (some sid) now).2 = .error .sessionExpired
    ∧ mapGet (checkSession st (some sid) now).1.sessions sid = none
    ∧ (checkSession (checkSession st (some sid) now).1 (some sid) now).2
        = .error .sessionExpired
    ∧ (∀ (st2 : AuthState) (oid : Option (List Char)) (now2 : Int),
        (checkSession st2 oid now2).2 = .error .noSession ↔ jsFalsy oid = true) := by
  have hred : checkSession st (some sid) now =
      ({ st with sessions := mapDelete st.sessions sid }, .error .sessionExpired) := by
    simp [checkSession, jsFalsy, hsid, hget, hexp]
  refine ⟨by rw [hred], ?_, ?_, ?_⟩
  · rw [hred]
    exact mapGet_mapDelete_self st.sessions sid
  · rw [hred]
    have h2 : mapGet (mapDelete st.sessions sid) sid = none :=
      mapGet_mapDelete_self st.sessions sid
    simp [checkSession, jsFalsy, hsid, h2]
  · intro st2 oid now2
    match oid with
    | none => simp [checkSession, jsFalsy]
    | some s2 =>
      by_cases h2 : s2 = []
      · simp [checkSession, jsFalsy, h2]
      · match hg : mapGet st2.sessions s2 with
        | some sd2 =>
          by_cases he : now2 > sd2.expiresAt <;>
            simp [checkSession, jsFalsy, h2, hg, he]
        | none => simp [checkSession, jsFalsy, h2, hg]

/-- Witness for the amended claim C5 at concrete inputs. -/
theorem session_expiry_lookups_witness :
    ¬ tSid = []
    ∧ mapGet tSessState.sessions tSid = some ⟨lcStr tAddr, 8453, 0, SESSION_DURATION⟩
    ∧ ((SESSION_DURATION + 1 : Int)
        > (⟨lcStr tAddr, 8453, 0, SESSION_DURATION⟩ : SessionData).expiresAt)
    ∧ (checkSession tSessState (some tSid) (SESSION_DURATION + 1)).2
        = .error .sessionExpired :=
  ⟨by decide, by decide, by decide,
   (session_expiry_lookups tSessState tSid ⟨lcStr tAddr, 8453, 0, SESSION_DURATION⟩
     (SESSION_DURATION + 1) (by decide) (by decide) (by decide)).1⟩

/-- Claim C6 (confirmed).  For a stored nonce, an attempt at
`createdAt + TTL − 1` does not fail with `NonceExpired` (the strict comparison
`now − createdAt > NONCE_EXPIRY` is false), while an attempt at
`createdAt + TTL + 1` fails with `NonceExpired` and evicts the nonce from the
store. -/
theorem nonce_expiry_boundary
    (opts : Options) (st : AuthState) (msg sig : List Char) (b : Backend)
    (sid : List Char) (n a : List Char) (nd : NonceData)
    (hm : ¬ msg = []) (hs : ¬ sig = [])
    (hn : findNonce msg = some n) (ha : findAddr msg = some a)
    (hget : mapGet st.nonces n = some nd) :
    (completeChallenge opts st (some msg) (some sig) b sid
        (nd.createdAt + NONCE_EXPIRY - 1)).2 ≠ .error .nonceExpired
    ∧ (completeChallenge opts st (some msg) (some sig) b sid
        (nd.createdAt + NONCE_EXPIRY + 1)).2 = .error .nonceExpired
    ∧ mapGet (completeChallenge opts st (some msg) (some sig) b sid
        (nd.createdAt + NONCE_EXPIRY + 1)).1.nonces n = none := by
  have hfresh : ¬ (nd.createdAt + NONCE_EXPIRY - 1 - nd.createdAt > NONCE_EXPIRY) := by
    omega
  have hexp : nd.createdAt + NONCE_EXPIRY + 1 - nd.createdAt > NONCE_EXPIRY := by
    omega
  have hred1 := completeChallenge_found opts st msg sig b sid
    (nd.createdAt + NONCE_EXPIRY - 1) n a nd hm hs hn ha hget
  have hred2 := completeChallenge_found opts st msg sig b sid
    (nd.createdAt + NONCE_EXPIRY + 1) n a nd hm hs hn ha hget
  rw [if_neg hfresh] at hred1
  rw [if_pos hexp] at hred2
  refine ⟨?_, by rw [hred2], by rw [hred2]; exact mapGet_mapDelete_self st.nonces n⟩
  rw [hred1]
  by_cases hmm2 : nd.address = lcStr a
  · rw [if_neg (fun hc => hc hmm2)]
    cases hv : verifySignature b a <;> simp
  · rw [if_pos hmm2]
    simp

/-- Witness for claim C6 at concrete inputs. -/
theorem nonce_expiry_boundary_witness :
    ¬ tMsg = [] ∧ ¬ tSig = []
    ∧ findNonce tMsg = some tTok ∧ findAddr tMsg = some tAddr
    ∧ mapGet tState.nonces tTok = some ⟨lcStr tAddr, 0⟩
    ∧ (completeChallenge tOpts tState (some tMsg) (some tSig) (.recovers tAddr) tSid
        ((0 : Int) + NONCE_EXPIRY + 1)).2 = .error .nonceExpired :=
  ⟨by decide, by decide, by decide, by decide, by decide,
   (nonce_expiry_boundary tOpts tState tMsg tSig (.recovers tAddr) tSid tTok tAddr
     ⟨lcStr tAddr, 0⟩ (by decide) (by decide) (by decide) (by decide) (by decide)).2.1⟩

/-- Claim C7 (counterexample).  A lookup performed exactly at `expiresAt`
returns the session record: the handler rejects only when `now > expiresAt`,
so a session is reported valid at `now = expiresAt` even though
`now < expiresAt` fails — the validity condition is `now ≤ expiresAt`, not a
strict inequality. -/
theorem session_valid_at_expiresAt :
    (checkSession tSessState (some tSid) SESSION_DURATION).2
      = .ok (lcStr tAddr, 8453, SESSION_DURATION)
    ∧ ¬ ((SESSION_DURATION : Int) < SESSION_DURATION) := by
  refine ⟨by decide, by decide⟩

/-- Claim C7 (amended).  Every session the store creates has
`expiresAt = issuedAt + SESSION_DURATION` with `SESSION_DURATION` equal to 24
hours in milliseconds, and a stored session is reported valid by lookup iff
the current time is less than or equal to `expiresAt`. -/
theorem session_duration_and_validity
    (opts : Options) (st : AuthState) (msg sig : List Char) (b : Backend)
    (sid : List Char) (now : Int) (n a : List Char) (nd : NonceData)
    (hm : ¬ msg = []) (hs : ¬ sig = [])
    (hn : findNonce msg = some n) (ha : findAddr msg = some a)
    (hget : mapGet st.nonces n = some nd)
    (hfresh : ¬ now - nd.createdAt > NONCE_EXPIRY)
    (hmatch : nd.address = lcStr a)
    (hv : verifySignature b a = true) :
    mapGet (completeChallenge opts st (some msg) (some sig) b sid now).1.sessions sid
      = some ⟨lcStr a, optChainId opts, now, now + SESSION_DURATION⟩
    ∧ SESSION_DURATION = 86400000
    ∧ (∀ (st2 : AuthState) (sid2 : List Char) (sd : SessionData) (now2 : Int),
        ¬ sid2 = [] → mapGet st2.sessions sid2 = some sd →
        ((checkSession st2 (some sid2) now2).2 = .ok (sd.address, sd.chainId, sd.expiresAt)
          ↔ now2 ≤ sd.expiresAt)) := by
  refine ⟨?_, by decide, ?_⟩
  · rw [completeChallenge_found opts st msg sig b sid now n a nd hm hs hn ha hget,
      if_neg hfresh, if_neg (fun hc => hc hmatch), if_pos hv]
    exact mapGet_mapSet_self st.sessions sid _
  · intro st2 sid2 sd now2 hs2 hg2
    by_cases he : now2 > sd.expiresAt
    · simp [checkSession, jsFalsy, hs2, hg2, he]
    · simp [checkSession, jsFalsy, hs2, hg2, he]
      omega

/-- Witness for the amended claim C7 at concrete inputs. -/
theorem session_duration_and_validity_witness :
    ¬ tMsg = [] ∧ ¬ tSig = []
    ∧ findNonce tMsg = some tTok ∧ findAddr tMsg = some tAddr
    ∧ mapGet tState.nonces tTok = some ⟨lcStr tAddr, 0⟩
    ∧ ¬ ((100 : Int) - 0 > NONCE_EXPIRY)
    ∧ (⟨lcStr tAddr, 0⟩ : NonceData).address = lcStr tAddr
    ∧ verifySignature (.recovers tAddr) tAddr = true
    ∧ mapGet (completeChallenge tOpts tState (some tMsg) (some tSig) (.recovers tAddr)
        tSid 100).1.sessions tSid
      = some ⟨lcStr tAddr, 8453, 100, 100 + SESSION_DURATION⟩ :=
  ⟨by decide, by decide, by decide, by decide, by decide, by decide, by decide,
   by decide,
   (session_duration_and_validity tOpts tState tMsg tSig (.recovers tAddr) tSid 100
     tTok tAddr ⟨lcStr tAddr, 0⟩ (by decide) (by decide) (by decide) (by decide)
     (by decide) (by decide) (by decide) (by decide)).1⟩

/-- Claim C8 (confirmed).  `requestChallenge` fails with `InvalidIdentity`
exactly when the request body does not carry a `0x`-prefixed 40-hex-digit
address; otherwise it stores the freshly generated nonce bound to the
lower-cased identity, and returns both the nonce and a message containing the
`Nonce: ` label followed by that nonce. -/
theorem requestChallenge_spec (opts : Options) (st : AuthState)
    (body : Option (List Char)) (tok : List Char) (now : Int) (iso : List Char) :
    ((requestChallenge opts st body tok now iso).2 = .error .invalidIdentity ↔
      ¬ ∃ a, body = some a ∧ isEthAddress a = true)
    ∧ (∀ a, body = some a → isEthAddress a = true →
      (requestChallenge opts st body tok now iso).2 =
        .ok (constructSIWEMessage (optDomain opts) a (optStatement opts)
          (litHttp ++ optDomain opts) litOne (natStr (optChainId opts)) tok iso, tok)
      ∧ mapGet (requestChallenge opts st body tok now iso).1.nonces tok
          = some ⟨lcStr a, now⟩
      ∧ ∃ p q, constructSIWEMessage (optDomain opts) a (optStatement opts)
          (litHttp ++ optDomain opts) litOne (natStr (optChainId opts)) tok iso
          = p ++ (nonceLabel ++ tok) ++ q) := by
  constructor
  · match body with
    | none => simp [requestChallenge]
    | some a =>
      by_cases hea : isEthAddress a = true
      · simp [requestChallenge, hea]
      · simp [requestChallenge, hea]
  · intro a hb hea
    subst hb
    refine ⟨by simp [requestChallenge, hea], ?_, ?_⟩
    · simp only [requestChallenge, hea, if_true, if_pos]
      exact mapGet_mapSet_self st.nonces tok _
    · refine ⟨optDomain opts ++ litAccount ++ a ++ litBlank ++
        jsOr (optStatement opts) defaultStatement ++ litURI ++
        (litHttp ++ optDomain opts) ++ litVersion ++ jsOr litOne litOne ++
        litChain ++ jsOr (natStr (optChainId opts)) litOne ++ ['\n'],
        litIssued ++ iso, ?_⟩
      have hlit : litNonce = ['\n'] ++ nonceLabel := by decide
      simp [constructSIWEMessage, hlit, List.append_assoc]

/-- Witness for claim C8 at concrete inputs. -/
theorem requestChallenge_spec_witness :
    (some tAddr : Option (List Char)) = some tAddr ∧ isEthAddress tAddr = true
    ∧ mapGet (requestChallenge tOpts ⟨[], []⟩ (some tAddr) tTok 0 tIso).1.nonces tTok
        = some ⟨lcStr tAddr, 0⟩ :=
  ⟨rfl, by decide,
   ((requestChallenge_spec tOpts ⟨[], []⟩ (some tAddr) tTok 0 tIso).2 tAddr rfl
     (by decide)).2.1⟩

/-- Claim C9 (confirmed).  `endSession` always acknowledges success (there is
no error path), and it is idempotent: a second invocation with the same
sessionId — including an absent or already-removed one — leaves the store in
exactly the state the first invocation produced. -/
theorem endSession_idempotent (st : AuthState) (sid : Option (List Char)) :
    (endSession st sid).2 = true
    ∧ endSession (endSession st sid).1 sid = endSession st sid := by
  constructor
  · unfold endSession
    split <;> rfl
  · match sid with
    | none => rfl
    | some s =>
      by_cases h : s = []
      · simp [endSession, jsFalsy, h]
      · simp [endSession, jsFalsy, h, mapDelete, List.filter_filter]

/-- Claim C10 (confirmed).  The `requireAuth` middleware and the
`/auth/session` endpoint make the same accept/reject decision on every store
state and sessionId: both accept exactly when a sessionId is supplied, it is
present in the store, and the current time is not past its `expiresAt`; and on
acceptance both expose the same stored identity and chain id (the endpoint
additionally reports `expiresAt`). -/
theorem requireAuth_matches_checkSession (st : AuthState) (sid : Option (List Char))
    (now : Int) :
    isOkE (requireAuth st sid now).2 = isOkE (checkSession st sid now).2
    ∧ (isOkE (checkSession st sid now).2 = true ↔
        jsFalsy sid = false
        ∧ ∃ sd, mapGet st.sessions (sid.getD []) = some sd ∧ ¬ now > sd.expiresAt)
    ∧ okPayload (requireAuth st sid now).2
        = (okPayload (checkSession st sid now).2).map (fun r => (r.1, r.2.1)) := by
  by_cases hf : jsFalsy sid = true
  · simp [requireAuth, checkSession, hf, isOkE, okPayload]
  · have hf' : jsFalsy sid = false := by simpa using hf
    match hg : mapGet st.sessions (sid.getD []) with
    | some sd =>
      by_cases he : now > sd.expiresAt
      · simp [requireAuth, checkSession, hf', hg, he, isOkE, okPayload]
      · simp [requireAuth, checkSession, hf', hg, he, isOkE, okPayload]
        omega
    | none => simp [requireAuth, checkSession, hf', hg, isOkE, okPayload]
